import Mathlib

-- Verification development for the AIOPS-ZABBIX polling / dedup / enrichment pipeline
-- (src/app/main.py).  Text is modelled as lists of characters; Python sets as
-- Finset; the ai_memory_cache dict as an association list whose lookup returns
-- the most recent binding; raising Python code as functions returning an error
-- component.  All definitions are translated from the source file.

namespace AIOPS

abbrev Str := List Char

def str (s : String) : Str := s.data

-- Python truthiness / string helpers --------------------------------------

-- c.isspace-relevant set for str.strip (space, tab, newline, return, vtab, formfeed)
def isSpaceChar (c : Char) : Bool :=
  c == ' ' || c == '\t' || c == '\n' || c == '\r' || c == '\x0b' || c == '\x0c'

-- str.strip(): remove leading and trailing whitespace
def pyStrip (xs : Str) : Str :=
  ((xs.dropWhile isSpaceChar).reverse.dropWhile isSpaceChar).reverse

-- startswith-style prefix test, used to locate occurrences of a pattern
def pyIsPrefix : Str → Str → Bool
  | [], _ => true
  | _ :: _, [] => false
  | p :: ps, c :: cs => p == c && pyIsPrefix ps cs

-- Python `pat in s` substring containment
def pyContains (pat : Str) : Str → Bool
  | [] => pyIsPrefix pat []
  | c :: cs => pyIsPrefix pat (c :: cs) || pyContains pat cs

-- str.split(sep): split on every non-overlapping leftmost occurrence of sep.
-- Fuel recursion (fuel = input length suffices) keeps the definition
-- kernel-reducible.
def splitFuel (sep : Str) : Nat → Str → List Str
  | 0, l => [l]
  | Nat.succ n, l =>
    match l with
    | [] => [[]]
    | c :: cs =>
      if pyIsPrefix sep (c :: cs) then
        [] :: splitFuel sep n (cs.drop (sep.length - 1))
      else
        match splitFuel sep n cs with
        | [] => [[c]]
        | p :: ps => (c :: p) :: ps

def pySplit (sep l : Str) : List Str := splitFuel sep l.length l

-- str.replace(pat, ""): delete every non-overlapping leftmost occurrence
def replFuel (pat : Str) : Nat → Str → Str
  | 0, l => l
  | Nat.succ n, l =>
    match l with
    | [] => []
    | c :: cs =>
      if pyIsPrefix pat (c :: cs) then
        replFuel pat n (cs.drop (pat.length - 1))
      else
        c :: replFuel pat n cs

def pyReplace (pat l : Str) : Str := replFuel pat l.length l

-- Data model ---------------------------------------------------------------

structure Tag where
  tag : Str
  value : Str
deriving DecidableEq

structure Ack where
  message : Str
deriving DecidableEq

structure Event where
  eventid : Option Str
  acknowledges : List Ack
deriving DecidableEq

-- Fields read with t[...] (raising when missing) are Option; fields read with
-- .get(..., default) are total.
structure Trigger where
  triggerid : Str
  description : Option Str
  priority : Option Str
  lastchange : Nat
  hosts : Option (List Str)
  lastEvent : Option Event
  tags : List Tag
deriving DecidableEq

structure EnrichmentResult where
  summary : Str
  action : Str
deriving DecidableEq

inductive PyErr
  | keyError
  | indexError
deriving DecidableEq

-- The arguments passed to asyncio.create_task(run_ai_pipeline(...))
structure Dispatch where
  eid : Str
  problem : Str
  host : Str
  severity : Str
  tags : List Tag
deriving DecidableEq

-- Global state: processing_events, handled_events, ai_memory_cache
structure PState where
  processing : Finset Str
  handled : Finset Str
  cache : List (Str × EnrichmentResult)

def initState : PState := ⟨∅, ∅, []⟩

def mlookup (m : List (Str × EnrichmentResult)) (k : Str) : Option EnrichmentResult :=
  (m.find? (fun p => p.1 == k)).map (fun p => p.2)

-- Recovery-marker constants (lines 133 and 151-157 of main.py)
def iaMark : Str := str "IA:"
def cmdSep : Str := str "| CMD:"

-- parse of a recovered acknowledgement (lines 156-157):
-- parts = msg.split(read separator); summary = parts[0] with all occurrences of
-- the marker removed and stripped; action = parts[1] stripped if present else N/A
def parseAck (msg : Str) : EnrichmentResult :=
  { summary := pyStrip (pyReplace iaMark ((pySplit cmdSep msg).headD []))
    action :=
      match pySplit cmdSep msg with
      | _ :: p1 :: _ => pyStrip p1
      | _ => str "N/A" }

-- zabbix_msg = f-string of line 133: "IA: " + summary + " | CMD: " + action
def mkZabbixMsg (s a : Str) : Str := str "IA: " ++ s ++ str " | CMD: " ++ a

-- trigger field access helpers
def eidOf (t : Trigger) : Option Str :=
  match t.lastEvent with
  | none => none
  | some ev => ev.eventid

def acksOf (t : Trigger) : List Ack :=
  match t.lastEvent with
  | none => []
  | some ev => ev.acknowledges

-- first acknowledgement whose message contains "IA:" (lines 152-159)
def findIA (acks : List Ack) : Option Ack :=
  acks.find? (fun a => pyContains iaMark a.message)

-- process_queue, one trigger (lines 145-164).  On the dispatch path the two
-- set inserts happen first (lines 162-163); then the create_task arguments
-- t[description], t[hosts][0][name], t[priority] are evaluated, raising when
-- missing (line 164) with the inserts already performed.
-- the two set inserts of lines 162-163
def beginProc (st : PState) (eid : Str) : PState :=
  { st with processing := insert eid st.processing
            handled := insert eid st.handled }

def stepTrigger (st : PState) (t : Trigger) : PState × Option Dispatch × Option PyErr :=
  match eidOf t with
  | none => (st, none, none)
  | some eid =>
    if eid = [] then (st, none, none)
    else if eid ∈ st.processing then (st, none, none)
    else if eid ∈ st.handled then (st, none, none)
    else if (mlookup st.cache eid).isSome then (st, none, none)
    else
      match findIA (acksOf t) with
      | some a => ({ st with cache := (eid, parseAck a.message) :: st.cache }, none, none)
      | none =>
        match t.description with
        | none => (beginProc st eid, none, some PyErr.keyError)
        | some desc =>
          match t.hosts with
          | none => (beginProc st eid, none, some PyErr.keyError)
          | some [] => (beginProc st eid, none, some PyErr.indexError)
          | some (h :: _) =>
            match t.priority with
            | none => (beginProc st eid, none, some PyErr.keyError)
            | some pr => (beginProc st eid, some ⟨eid, desc, h, pr, t.tags⟩, none)

-- process_queue over the fetched trigger list (lines 143-164); an exception
-- aborts the remainder of the batch, keeping mutations already made.
def process_queue (st : PState) : List Trigger → PState × List Dispatch × Option PyErr
  | [] => (st, [], none)
  | t :: ts =>
    match stepTrigger st t with
    | (st₁, _, some e) => (st₁, [], some e)
    | (st₁, d?, none) =>
      match process_queue st₁ ts with
      | (st₂, ds, e?) =>
        (st₂, d?.toList ++ ds, e?)

-- run_ai_pipeline (lines 126-141) ------------------------------------------

-- what json.loads(response...) hands back: a dict with optional keys, or a
-- JSON value that is not an object (on which ai_data.get raises)
inductive AiData
  | dict (analysis : Option Str) (command : Option Str)
  | nondict
deriving DecidableEq

-- outcome of the guarded body of analyze_with_ai (lines 114-123): either the
-- parsed response, or some exception inside the try (network, timeout,
-- non-JSON response)
inductive AiOutcome
  | ok (d : AiData)
  | raised
deriving DecidableEq

-- analyze_with_ai (lines 110-124): any exception is replaced by the fixed
-- fallback dict of line 124
def analyze_with_ai (o : AiOutcome) : AiData :=
  match o with
  | AiOutcome.ok d => d
  | AiOutcome.raised => AiData.dict (some (str "Erro IA")) (some (str "N/A"))

-- per-task environment: the analyze outcome, and whether the best-effort
-- notification raises (caught by the except of line 139)
structure TaskEnv where
  ai : AiOutcome
  telegramRaises : Bool

-- state effect of one run_ai_pipeline task (lines 126-141): when ai_data is a
-- dict, lines 130-134 store the result; when not, ai_data.get raises and the
-- except of line 139 swallows it before any store; post_zabbix_comment and
-- send_telegram_alert do not touch the store; the finally of lines 140-141
-- always removes the id from processing_events.
def run_ai_pipeline (eid : Str) (env : TaskEnv) (st : PState) : PState :=
  let ai_data := analyze_with_ai env.ai
  let st₁ :=
    match ai_data with
    | AiData.dict a c =>
      { st with cache :=
          (eid, ⟨a.getD (str "Indisponível"), c.getD (str "N/A")⟩) :: st.cache }
    | AiData.nondict => st
  { st₁ with processing := st₁.processing.erase eid }

-- System trace model --------------------------------------------------------

-- A dispatched task is between its launch and the cache write of line 134
-- (started), or between that write and the finally of line 141 (cached);
-- the awaits of lines 136 and 138 make the cached window observable.
inductive TaskPhase
  | started
  | cached
deriving DecidableEq

structure Sys where
  store : PState
  pending : List (Str × TaskPhase)
  dispatched : List Str

def initSys : Sys := ⟨initState, [], []⟩

-- one scheduler cycle: process_queue over an arbitrary fetched trigger list;
-- launched tasks join pending, and the dispatch history records their ids
def applyCycle (s : Sys) (ts : List Trigger) : Sys :=
  { store := (process_queue s.store ts).1
    pending := s.pending ++ (process_queue s.store ts).2.1.map (fun d => (d.eid, TaskPhase.started))
    dispatched := s.dispatched ++ (process_queue s.store ts).2.1.map Dispatch.eid }

-- a started task reaches line 134: result cached, removal still pending
def applyCacheWrite (s : Sys) (e : Str) (res : EnrichmentResult) : Sys :=
  { s with
    store := { s.store with cache := (e, res) :: s.store.cache }
    pending := s.pending.erase (e, TaskPhase.started) ++ [(e, TaskPhase.cached)] }

-- a task runs its finally (line 141): id leaves processing_events; from
-- started this is the raising path that skipped the cache write, from cached
-- the normal completion
def applyTaskDone (s : Sys) (e : Str) (ph : TaskPhase) : Sys :=
  { s with
    store := { s.store with processing := s.store.processing.erase e }
    pending := s.pending.erase (e, ph) }

inductive Step : Sys → Sys → Prop
  | cycle (s : Sys) (ts : List Trigger) : Step s (applyCycle s ts)
  | cacheWrite (s : Sys) (e : Str) (res : EnrichmentResult)
      (h : (e, TaskPhase.started) ∈ s.pending) : Step s (applyCacheWrite s e res)
  | taskDone (s : Sys) (e : Str) (ph : TaskPhase)
      (h : (e, ph) ∈ s.pending) : Step s (applyTaskDone s e ph)

inductive StepStar : Sys → Sys → Prop
  | refl (s : Sys) : StepStar s s
  | tail {s s' s'' : Sys} : StepStar s s' → Step s' s'' → StepStar s s''

def Reach (s : Sys) : Prop := StepStar initSys s

-- Snapshot aggregator: format_dashboard (lines 193-210) ---------------------

structure Entry where
  id : Str
  host : Str
  problem : Str
  severity : Str
  time : Nat
  tags : List Str
  ai_summary : Str
  ai_action : Option Str
deriving DecidableEq

structure Snapshot where
  total : Nat
  critical : Nat
  tokens : Nat
  data : List Entry
deriving DecidableEq

-- tag rendering of line 203
def renderTag (tg : Tag) : Str :=
  if tg.value = [] then tg.tag else tg.tag ++ str ": " ++ tg.value

-- one loop body of lines 197-209; t[priority], t[hosts], t[description] raise
-- when the key is missing (t[hosts] is then truth-tested before indexing)
def fmtEntry (st : PState) (t : Trigger) : Except PyErr Entry :=
  match t.priority with
  | none => Except.error PyErr.keyError
  | some pr =>
    let eid? := eidOf t
    let summary :=
      match eid? with
      | some e =>
        match mlookup st.cache e with
        | some r => r.summary
        | none => if e ∈ st.processing then str "⚡ Processando..." else str "Aguardando..."
      | none => str "Aguardando..."
    let action :=
      match eid? with
      | some e => (mlookup st.cache e).map EnrichmentResult.action
      | none => none
    match t.hosts with
    | none => Except.error PyErr.keyError
    | some hs =>
      match t.description with
      | none => Except.error PyErr.keyError
      | some desc =>
        Except.ok
          { id :=
              match eid? with
              | some e => if e = [] then t.triggerid else e
              | none => t.triggerid
            host := match hs with | [] => str "?" | h :: _ => h
            problem := desc
            severity := pr
            time := t.lastchange
            tags := (t.tags.take 4).map renderTag
            ai_summary := summary
            ai_action := action }

def fmtList (st : PState) : List Trigger → Except PyErr (List Entry)
  | [] => Except.ok []
  | t :: ts =>
    match fmtEntry st t with
    | Except.error e => Except.error e
    | Except.ok en =>
      match fmtList st ts with
      | Except.error e => Except.error e
      | Except.ok ens => Except.ok (en :: ens)

def isCriticalSev (sv : Str) : Bool := sv == str "4" || sv == str "5"

def format_dashboard (st : PState) (tokens : Nat) (ts : List Trigger) :
    Except PyErr (Option Snapshot) :=
  match ts with
  | [] => Except.ok none
  | _ :: _ =>
    match fmtList st ts with
    | Except.error e => Except.error e
    | Except.ok ens =>
      Except.ok (some
        { total := ts.length
          critical := (ens.filter (fun en => isCriticalSev en.severity)).length
          tokens := tokens
          data := ens })

-- Broadcast hub: ConnectionManager (lines 41-55) ----------------------------

-- disconnect (lines 47-49): remove the first occurrence when present
def disconnect (ws : Nat) (conns : List Nat) : List Nat :=
  if ws ∈ conns then conns.erase ws else conns

-- broadcast (lines 50-55): iterate over a snapshot copy of the live list;
-- fails tells which send_text calls raise; returns the live list afterwards
-- and the subscribers to which delivery succeeded
def broadcastGo (fails : Nat → Bool) : List Nat → List Nat → List Nat × List Nat
  | [], cur => (cur, [])
  | c :: snap, cur =>
    if fails c then broadcastGo fails snap (disconnect c cur)
    else ((broadcastGo fails snap cur).1, c :: (broadcastGo fails snap cur).2)

def broadcast (conns : List Nat) (fails : Nat → Bool) : List Nat × List Nat :=
  broadcastGo fails conns conns

-- Claim-side parse, for comparison ------------------------------------------

-- text before / after the first occurrence of sep
def firstSplitFuel (sep : Str) : Nat → Str → Str × Option Str
  | 0, l => (l, none)
  | Nat.succ n, l =>
    match l with
    | [] => ([], none)
    | c :: cs =>
      if pyIsPrefix sep (c :: cs) then ([], some (cs.drop (sep.length - 1)))
      else
        match firstSplitFuel sep n cs with
        | (p, r) => (c :: p, r)

def splitFirst (sep l : Str) : Str × Option Str := firstSplitFuel sep l.length l

-- Modelled from the words of claim C2 (not from the source): summary is the
-- text before the separator with the marker prefix removed and trimmed;
-- action is the text after the separator trimmed, or the sentinel
def stripIaPre (l : Str) : Str :=
  if pyIsPrefix iaMark l then l.drop iaMark.length else l

def claimParse (msg : Str) : EnrichmentResult :=
  match splitFirst cmdSep msg with
  | (pre, some post) => ⟨pyStrip (stripIaPre pre), pyStrip post⟩
  | (pre, none) => ⟨pyStrip (stripIaPre pre), str "N/A"⟩

-- Concrete fixtures ----------------------------------------------------------

-- well-formed fresh trigger (no acknowledgements): dispatch path
def tGood : Trigger :=
  { triggerid := str "T5"
    description := some (str "disk full")
    priority := some (str "5")
    lastchange := 0
    hosts := some [str "srv01"]
    lastEvent := some ⟨some (str "E5"), []⟩
    tags := [⟨str "env", str "prod"⟩, ⟨str "team", str "ops"⟩, ⟨str "dc", str "sp"⟩,
             ⟨str "svc", str "db"⟩, ⟨str "extra", []⟩] }

-- trigger already acknowledged with a well-formed marker: recovery path
def tAck : Trigger :=
  { triggerid := str "T2"
    description := some (str "cpu load")
    priority := some (str "3")
    lastchange := 0
    hosts := some [str "srv02"]
    lastEvent := some ⟨some (str "E2"), [⟨str "IA: cpu spike | CMD: top"⟩]⟩
    tags := [] }

-- acknowledgement text with a repeated marker and repeated separator
def msgWeird : Str := str "IA: a IA: b | CMD: c | CMD: d"

def tWeird : Trigger :=
  { triggerid := str "T3"
    description := some (str "mem leak")
    priority := some (str "4")
    lastchange := 0
    hosts := some [str "srv03"]
    lastEvent := some ⟨some (str "E3"), [⟨msgWeird⟩]⟩
    tags := [] }

-- malformed trigger: fresh event id but an empty hosts list
def tBad : Trigger :=
  { triggerid := str "T1"
    description := some (str "net down")
    priority := some (str "2")
    lastchange := 0
    hosts := some []
    lastEvent := some ⟨some (str "E1"), []⟩
    tags := [] }

-- String toolkit lemmas ------------------------------------------------------

lemma dropWhileLenLe (p : α → Bool) : ∀ l : List α, (List.dropWhile p l).length ≤ l.length
  | [] => le_refl _
  | c :: cs => by
    rw [List.dropWhile_cons]
    by_cases h : p c = true
    · rw [if_pos h]
      exact le_trans (dropWhileLenLe p cs) (Nat.le_succ _)
    · rw [if_neg h]

lemma dropWhileEqOfLen (p : α → Bool) : ∀ l : List α,
    (List.dropWhile p l).length = l.length → List.dropWhile p l = l
  | [] => fun _ => rfl
  | c :: cs => by
    rw [List.dropWhile_cons]
    by_cases h : p c = true
    · rw [if_pos h]
      intro hlen
      have := dropWhileLenLe p cs
      simp at hlen
      omega
    · rw [if_neg h]
      intro _
      rfl

lemma pyStrip_drop {s : Str} (h : pyStrip s = s) :
    List.dropWhile isSpaceChar s = s := by
  unfold pyStrip at h
  apply dropWhileEqOfLen
  have h1 := dropWhileLenLe isSpaceChar s
  have h2 := dropWhileLenLe isSpaceChar (List.dropWhile isSpaceChar s).reverse
  have h3 := congrArg List.length h
  simp at h2 h3
  omega

lemma pyStrip_drop_rev {s : Str} (h : pyStrip s = s) :
    List.dropWhile isSpaceChar s.reverse = s.reverse := by
  have hd := pyStrip_drop h
  unfold pyStrip at h
  rw [hd] at h
  have := congrArg List.reverse h
  simpa using this

lemma pyStrip_cons_space {a : Str} (h : pyStrip a = a) : pyStrip (' ' :: a) = a := by
  unfold pyStrip
  rw [List.dropWhile_cons, if_pos (by decide : isSpaceChar ' ' = true)]
  rw [pyStrip_drop h, pyStrip_drop_rev h, List.reverse_reverse]

lemma pyStrip_pad {s : Str} (h : pyStrip s = s) : pyStrip (' ' :: (s ++ [' '])) = s := by
  cases s with
  | nil => decide
  | cons hd tl =>
    have hne : isSpaceChar hd = false := by
      have hdrop := pyStrip_drop h
      rw [List.dropWhile_cons] at hdrop
      by_cases hh : isSpaceChar hd = true
      · rw [if_pos hh] at hdrop
        have h1 := dropWhileLenLe isSpaceChar tl
        have h2 := congrArg List.length hdrop
        simp at h2
        omega
      · simpa using hh
    unfold pyStrip
    rw [List.dropWhile_cons, if_pos (by decide : isSpaceChar ' ' = true)]
    rw [show (hd :: tl) ++ [' '] = hd :: (tl ++ [' ']) from rfl]
    rw [List.dropWhile_cons, if_neg (by simp [hne])]
    rw [show (hd :: (tl ++ [' '])).reverse = ' ' :: (hd :: tl).reverse by simp]
    rw [List.dropWhile_cons, if_pos (by decide : isSpaceChar ' ' = true)]
    rw [pyStrip_drop_rev h, List.reverse_reverse]

lemma pyIsPrefix_iff : ∀ p l : Str, pyIsPrefix p l = true ↔ p <+: l
  | [], l => by simp [pyIsPrefix, List.nil_prefix]
  | p :: ps, [] => by simp [pyIsPrefix, List.prefix_nil]
  | p :: ps, c :: cs => by
    rw [List.cons_prefix_cons]
    simp only [pyIsPrefix, Bool.and_eq_true, beq_iff_eq]
    rw [pyIsPrefix_iff ps cs]

lemma pyContains_iff : ∀ (p l : Str), pyContains p l = true ↔ p <:+: l
  | p, [] => by
    cases p with
    | nil => simp [pyContains, pyIsPrefix, List.infix_refl]
    | cons c cs => simp [pyContains, pyIsPrefix, List.infix_nil]
  | p, c :: cs => by
    simp [pyContains, Bool.or_eq_true, pyIsPrefix_iff, pyContains_iff p cs,
      List.infix_cons_iff]

lemma not_infix_of_contains_false {p l : Str} (h : pyContains p l = false) :
    ¬ p <:+: l := by
  rw [← pyContains_iff]
  simp [h]

lemma contains_false_of_not_infix {p l : Str} (h : ¬ p <:+: l) :
    pyContains p l = false := by
  rw [Bool.eq_false_iff]
  intro hc
  exact h ((pyContains_iff p l).mp hc)

lemma prefix_head {d : Char} {ds : Str} {c : Char} {l : Str}
    (h : (d :: ds) <+: (c :: l)) : d = c := (List.cons_prefix_cons.mp h).1

lemma not_infix_cons {p : Str} {c : Char} {l : Str}
    (h1 : ¬ p <+: c :: l) (h2 : ¬ p <:+: l) : ¬ p <:+: c :: l := fun h =>
  (List.infix_cons_iff.mp h).elim h1 h2

lemma infix_rev_elim {p l : Str} (h : p.reverse <:+: l.reverse) : p <:+: l := by
  obtain ⟨s, t, hst⟩ := h
  refine ⟨t.reverse, s.reverse, ?_⟩
  have h2 := congrArg List.reverse hst
  simpa [List.reverse_append, List.append_assoc] using h2

lemma not_infix_snoc {p l : Str} {b : Char}
    (hne : p.reverse.head? ≠ some b) (h : ¬ p <:+: l) : ¬ p <:+: (l ++ [b]) := by
  intro hin
  obtain ⟨s, t, hst⟩ := hin
  have hrev : p.reverse <:+: (b :: l.reverse) := by
    refine ⟨t.reverse, s.reverse, ?_⟩
    have h2 := congrArg List.reverse hst
    simpa [List.reverse_append, List.append_assoc] using h2
  rcases List.infix_cons_iff.mp hrev with hpre | hinf
  · cases hp : p.reverse with
    | nil =>
      have hpnil : p = [] := by simpa using congrArg List.reverse hp
      exact h (hpnil ▸ ⟨[], l, by simp⟩)
    | cons d ds =>
      rw [hp] at hpre
      have hd := prefix_head hpre
      rw [hp] at hne
      simp [hd] at hne
  · exact h (infix_rev_elim hinf)

def NoSelfOverlap (p : Str) : Prop :=
  ∀ L : Nat, L < p.length → 0 < L → List.take L p ≠ List.drop (p.length - L) p

lemma prefix_overlap {sep xs ys : Str} (hx : xs ≠ []) (hno : NoSelfOverlap sep)
    (h : sep <+: (xs ++ sep ++ ys)) : sep <:+: xs := by
  by_cases hlen : sep.length ≤ xs.length
  · have h1 := List.prefix_iff_eq_take.mp h
    rw [List.append_assoc, List.take_append_of_le_length hlen] at h1
    have hpre : sep <+: xs := h1 ▸ List.take_prefix _ _
    obtain ⟨t, ht⟩ := hpre
    exact ⟨[], t, by simpa using ht⟩
  · push_neg at hlen
    exfalso
    have h1 := List.prefix_iff_eq_take.mp h
    rw [List.append_assoc, List.take_append_eq_append_take,
      List.take_of_length_le (le_of_lt hlen)] at h1
    rw [List.take_append_of_le_length (by omega)] at h1
    have h3 : List.drop xs.length sep = List.take (sep.length - xs.length) sep := by
      conv_lhs => rw [h1]
      exact List.drop_left _ _
    have hxlen : 0 < xs.length := List.length_pos.mpr hx
    have harith : sep.length - (sep.length - xs.length) = xs.length := by omega
    exact hno (sep.length - xs.length) (by omega) (by omega) (by rw [harith]; exact h3.symm)

-- Fuel irrelevance -----------------------------------------------------------

lemma splitFuel_irrel (sep : Str) : ∀ n m l, l.length ≤ n → l.length ≤ m →
    splitFuel sep n l = splitFuel sep m l
  | 0, m, l, hn, _ => by
    have hl : l = [] := List.length_eq_zero.mp (Nat.le_zero.mp hn)
    subst hl
    cases m <;> simp [splitFuel]
  | Nat.succ n, m, l, hn, hm => by
    cases l with
    | nil => cases m <;> simp [splitFuel]
    | cons c cs =>
      obtain ⟨m', rfl⟩ : ∃ m', m = m' + 1 := ⟨m - 1, by simp at hm; omega⟩
      simp only [splitFuel]
      by_cases hp : pyIsPrefix sep (c :: cs) = true
      · rw [if_pos hp, if_pos hp]
        rw [splitFuel_irrel sep n m' (cs.drop (sep.length - 1))
          (by have := List.length_drop (sep.length - 1) cs; simp at hn ⊢; omega)
          (by have := List.length_drop (sep.length - 1) cs; simp at hm ⊢; omega)]
      · rw [if_neg hp, if_neg hp]
        rw [splitFuel_irrel sep n m' cs (by simp at hn; omega) (by simp at hm; omega)]

lemma replFuel_irrel (pat : Str) : ∀ n m l, l.length ≤ n → l.length ≤ m →
    replFuel pat n l = replFuel pat m l
  | 0, m, l, hn, _ => by
    have hl : l = [] := List.length_eq_zero.mp (Nat.le_zero.mp hn)
    subst hl
    cases m <;> simp [replFuel]
  | Nat.succ n, m, l, hn, hm => by
    cases l with
    | nil => cases m <;> simp [replFuel]
    | cons c cs =>
      obtain ⟨m', rfl⟩ : ∃ m', m = m' + 1 := ⟨m - 1, by simp at hm; omega⟩
      simp only [replFuel]
      by_cases hp : pyIsPrefix pat (c :: cs) = true
      · rw [if_pos hp, if_pos hp]
        rw [replFuel_irrel pat n m' (cs.drop (pat.length - 1))
          (by have := List.length_drop (pat.length - 1) cs; simp at hn ⊢; omega)
          (by have := List.length_drop (pat.length - 1) cs; simp at hm ⊢; omega)]
      · rw [if_neg hp, if_neg hp]
        rw [replFuel_irrel pat n m' cs (by simp at hn; omega) (by simp at hm; omega)]

-- split / replace behaviour --------------------------------------------------

lemma pyIsPrefix_append_self : ∀ p t : Str, pyIsPrefix p (p ++ t) = true
  | [], _ => rfl
  | c :: cs, t => by simp [pyIsPrefix, pyIsPrefix_append_self cs t]

lemma pyContains_false_head {sep : Str} {c : Char} {cs : Str}
    (h : pyContains sep (c :: cs) = false) :
    pyIsPrefix sep (c :: cs) = false ∧ pyContains sep cs = false := by
  have h2 := h
  unfold pyContains at h2
  exact ⟨by cases hb : pyIsPrefix sep (c :: cs) <;> simp [hb] at h2 ⊢,
         by cases hb : pyContains sep cs <;> simp [hb] at h2 ⊢⟩

lemma splitFuel_no_occ (sep : Str) : ∀ n l, l.length ≤ n →
    pyContains sep l = false → splitFuel sep n l = [l]
  | 0, l, hn, _ => by
    have hl : l = [] := List.length_eq_zero.mp (Nat.le_zero.mp hn)
    subst hl
    rfl
  | Nat.succ n, [], _, _ => by simp [splitFuel]
  | Nat.succ n, c :: cs, hn, hc => by
    obtain ⟨h1, h2⟩ := pyContains_false_head hc
    simp only [splitFuel]
    rw [if_neg (by simp [h1])]
    rw [splitFuel_no_occ sep n cs (by simp at hn; omega) h2]

lemma pySplit_no_occ {sep l : Str} (hc : pyContains sep l = false) :
    pySplit sep l = [l] := splitFuel_no_occ sep l.length l le_rfl hc

lemma splitFuel_split (sep : Str) (hsep : sep ≠ []) (hno : NoSelfOverlap sep) (ys : Str) :
    ∀ xs n, (xs ++ sep ++ ys).length ≤ n → pyContains sep xs = false →
      splitFuel sep n (xs ++ sep ++ ys) = xs :: splitFuel sep ys.length ys
  | [], n, hn, _ => by
    obtain ⟨d, ds, rfl⟩ : ∃ d ds, sep = d :: ds := by
      cases sep with
      | nil => exact absurd rfl hsep
      | cons d ds => exact ⟨d, ds, rfl⟩
    obtain ⟨n', rfl⟩ : ∃ n', n = n' + 1 := ⟨n - 1, by simp at hn; omega⟩
    simp only [List.nil_append, List.cons_append, splitFuel]
    rw [if_pos (by simpa using pyIsPrefix_append_self (d :: ds) ys)]
    have hdr : ((d :: ds : Str).length - 1) = ds.length := by simp
    rw [hdr, List.drop_left ds ys]
    rw [splitFuel_irrel (d :: ds) n' ys.length ys (by simp at hn; omega) le_rfl]
  | c :: xs, n, hn, hc => by
    obtain ⟨n', rfl⟩ : ∃ n', n = n' + 1 := ⟨n - 1, by simp at hn; omega⟩
    obtain ⟨h1, h2⟩ := pyContains_false_head hc
    have hpre : ¬ pyIsPrefix sep ((c :: xs) ++ sep ++ ys) = true := by
      intro hcon
      have hp := (pyIsPrefix_iff _ _).mp hcon
      have hinf := prefix_overlap (List.cons_ne_nil c xs) hno hp
      exact not_infix_of_contains_false hc hinf
    have hrec := splitFuel_split sep hsep hno ys xs n' (by simp at hn ⊢; omega) h2
    simp only [List.cons_append, splitFuel] at hpre ⊢
    rw [if_neg hpre]
    rw [hrec]

lemma pySplit_split {sep xs ys : Str} (hsep : sep ≠ []) (hno : NoSelfOverlap sep)
    (hc : pyContains sep xs = false) :
    pySplit sep (xs ++ sep ++ ys) = xs :: pySplit sep ys :=
  splitFuel_split sep hsep hno ys xs (xs ++ sep ++ ys).length le_rfl hc

lemma replFuel_no_occ (pat : Str) : ∀ n l, l.length ≤ n →
    pyContains pat l = false → replFuel pat n l = l
  | 0, l, _, _ => rfl
  | Nat.succ n, [], _, _ => by simp [replFuel]
  | Nat.succ n, c :: cs, hn, hc => by
    obtain ⟨h1, h2⟩ := pyContains_false_head hc
    simp only [replFuel]
    rw [if_neg (by simp [h1])]
    rw [replFuel_no_occ pat n cs (by simp at hn; omega) h2]

lemma replFuel_append_self (pat : Str) (hpat : pat ≠ []) :
    ∀ n ys, (pat ++ ys).length ≤ n → replFuel pat n (pat ++ ys) = replFuel pat ys.length ys := by
  intro n ys hn
  obtain ⟨d, ds, rfl⟩ : ∃ d ds, pat = d :: ds := by
    cases pat with
    | nil => exact absurd rfl hpat
    | cons d ds => exact ⟨d, ds, rfl⟩
  obtain ⟨n', rfl⟩ : ∃ n', n = n' + 1 := ⟨n - 1, by simp at hn; omega⟩
  simp only [List.cons_append, replFuel]
  rw [if_pos (by simpa using pyIsPrefix_append_self (d :: ds) ys)]
  have hdr : ((d :: ds : Str).length - 1) = ds.length := by simp
  rw [hdr, List.drop_left ds ys]
  exact replFuel_irrel (d :: ds) n' ys.length ys (by simp at hn; omega) le_rfl

lemma pyReplace_strip {pat ys : Str} (hpat : pat ≠ [])
    (hc : pyContains pat ys = false) : pyReplace pat (pat ++ ys) = ys := by
  unfold pyReplace
  rw [replFuel_append_self pat hpat _ _ le_rfl]
  exact replFuel_no_occ pat ys.length ys le_rfl hc

-- Marker-specific facts ------------------------------------------------------

lemma cmdSep_eq : cmdSep = ['|', ' ', 'C', 'M', 'D', ':'] := by decide

lemma iaMark_eq : iaMark = ['I', 'A', ':'] := by decide

lemma cmdSep_noOverlap : NoSelfOverlap cmdSep := by
  unfold NoSelfOverlap
  decide

lemma not_prefix_cmdSep {c : Char} {l : Str} (hc : c ≠ '|') : ¬ cmdSep <+: (c :: l) := by
  intro h
  rw [cmdSep_eq] at h
  exact hc (prefix_head h).symm

lemma not_prefix_iaMark {c : Char} {l : Str} (hc : c ≠ 'I') : ¬ iaMark <+: (c :: l) := by
  intro h
  rw [iaMark_eq] at h
  exact hc (prefix_head h).symm

lemma cmd_not_in_pad {a : Str} (h : pyContains cmdSep a = false) :
    pyContains cmdSep (' ' :: a) = false :=
  contains_false_of_not_infix
    (not_infix_cons (not_prefix_cmdSep (by decide)) (not_infix_of_contains_false h))

lemma cmd_not_in_part0 {s : Str} (h : pyContains cmdSep s = false) :
    pyContains cmdSep (str "IA: " ++ s ++ [' ']) = false := by
  apply contains_false_of_not_infix
  have hsnoc : ¬ cmdSep <:+: (s ++ [' ']) :=
    not_infix_snoc (by decide) (not_infix_of_contains_false h)
  have hlit : str "IA: " = ['I', 'A', ':', ' '] := by decide
  have hshape : str "IA: " ++ s ++ [' '] = 'I' :: 'A' :: ':' :: ' ' :: (s ++ [' ']) := by
    rw [hlit]
    simp [List.append_assoc]
  rw [hshape]
  exact not_infix_cons (not_prefix_cmdSep (by decide))
    (not_infix_cons (not_prefix_cmdSep (by decide))
      (not_infix_cons (not_prefix_cmdSep (by decide))
        (not_infix_cons (not_prefix_cmdSep (by decide)) hsnoc)))

lemma ia_not_in_padded {s : Str} (h : pyContains iaMark s = false) :
    pyContains iaMark (' ' :: (s ++ [' '])) = false :=
  contains_false_of_not_infix
    (not_infix_cons (not_prefix_iaMark (by decide))
      (not_infix_snoc (by decide) (not_infix_of_contains_false h)))

-- Cache lookup helpers -------------------------------------------------------

lemma mlookup_cons_self (m : List (Str × EnrichmentResult)) (k : Str)
    (v : EnrichmentResult) : mlookup ((k, v) :: m) k = some v := by
  simp [mlookup, List.find?_cons]

lemma mlookup_cons_ne (m : List (Str × EnrichmentResult)) {k k' : Str}
    (v : EnrichmentResult) (h : k' ≠ k) : mlookup ((k', v) :: m) k = mlookup m k := by
  simp [mlookup, List.find?_cons, h]

lemma mlookup_cons_some {m : List (Str × EnrichmentResult)} {k k' : Str}
    {v v' : EnrichmentResult} (hk : mlookup m k = some v) :
    mlookup ((k', v') :: m) k = some (if k' = k then v' else v) := by
  by_cases h : k' = k
  · subst h
    simp [mlookup_cons_self]
  · rw [mlookup_cons_ne _ _ h, hk, if_neg h]

-- Pipeline step lemmas -------------------------------------------------------

lemma stepTrigger_shape (st : PState) (t : Trigger) :
    stepTrigger st t = (st, none, none) ∨
    (∃ eid a, eid ≠ [] ∧ eid ∉ st.processing ∧ eid ∉ st.handled ∧
      mlookup st.cache eid = none ∧ findIA (acksOf t) = some a ∧
      stepTrigger st t =
        ({ st with cache := (eid, parseAck a.message) :: st.cache }, none, none)) ∨
    (∃ (eid : Str) (r : Option Dispatch × Option PyErr), eid ≠ [] ∧ eid ∉ st.processing ∧
      eid ∉ st.handled ∧ mlookup st.cache eid = none ∧
      (∀ d : Dispatch, r.1 = some d → d.eid = eid ∧ r.2 = none) ∧
      stepTrigger st t = (beginProc st eid, r.1, r.2)) := by
  rcases hev : eidOf t with _ | eid
  · left
    simp only [stepTrigger, hev]
  by_cases h0 : eid = []
  · left
    simp only [stepTrigger, hev, if_pos h0]
  by_cases h1 : eid ∈ st.processing
  · left
    simp only [stepTrigger, hev, if_neg h0, if_pos h1]
  by_cases h2 : eid ∈ st.handled
  · left
    simp only [stepTrigger, hev, if_neg h0, if_neg h1, if_pos h2]
  by_cases h3 : (mlookup st.cache eid).isSome = true
  · left
    simp only [stepTrigger, hev, if_neg h0, if_neg h1, if_neg h2, if_pos h3]
  have h3' : mlookup st.cache eid = none := Option.not_isSome_iff_eq_none.mp h3
  have hu : stepTrigger st t =
      (match findIA (acksOf t) with
        | some a => ({ st with cache := (eid, parseAck a.message) :: st.cache }, none, none)
        | none =>
          match t.description with
          | none => (beginProc st eid, none, some PyErr.keyError)
          | some desc =>
            match t.hosts with
            | none => (beginProc st eid, none, some PyErr.keyError)
            | some [] => (beginProc st eid, none, some PyErr.indexError)
            | some (h :: _) =>
              match t.priority with
              | none => (beginProc st eid, none, some PyErr.keyError)
              | some pr => (beginProc st eid, some ⟨eid, desc, h, pr, t.tags⟩, none)) := by
    simp only [stepTrigger, hev, if_neg h0, if_neg h1, if_neg h2, if_neg h3]
  rcases hf : findIA (acksOf t) with _ | a
  · -- no marker: dispatch or raising path
    rcases hd : t.description with _ | desc
    · refine Or.inr (Or.inr ⟨eid, (none, some PyErr.keyError), h0, h1, h2, h3', ?_, ?_⟩)
      · intro d hdd
        cases hdd
      · rw [hu]
        simp [hf, hd]
    rcases hh : t.hosts with _ | hs
    · refine Or.inr (Or.inr ⟨eid, (none, some PyErr.keyError), h0, h1, h2, h3', ?_, ?_⟩)
      · intro d hdd
        cases hdd
      · rw [hu]
        simp [hf, hd, hh]
    rcases hs with _ | ⟨hName, hRest⟩
    · refine Or.inr (Or.inr ⟨eid, (none, some PyErr.indexError), h0, h1, h2, h3', ?_, ?_⟩)
      · intro d hdd
        cases hdd
      · rw [hu]
        simp [hf, hd, hh]
    rcases hp : t.priority with _ | pr
    · refine Or.inr (Or.inr ⟨eid, (none, some PyErr.keyError), h0, h1, h2, h3', ?_, ?_⟩)
      · intro d hdd
        cases hdd
      · rw [hu]
        simp [hf, hd, hh, hp]
    · refine Or.inr (Or.inr ⟨eid, (some ⟨eid, desc, hName, pr, t.tags⟩, none), h0, h1, h2, h3',
        ?_, ?_⟩)
      · intro d hdd
        simp at hdd
        rw [← hdd]
        exact ⟨rfl, rfl⟩
      · rw [hu]
        simp [hf, hd, hh, hp]
  · -- recovery path
    refine Or.inr (Or.inl ⟨eid, a, h0, h1, h2, h3', rfl, ?_⟩)
    rw [hu]
    simp [hf]

lemma stepTrigger_mono (st : PState) (t : Trigger) :
    st.handled ⊆ (stepTrigger st t).1.handled ∧
    st.processing ⊆ (stepTrigger st t).1.processing ∧
    (∀ e v, mlookup st.cache e = some v → mlookup (stepTrigger st t).1.cache e = some v) := by
  rcases stepTrigger_shape st t with hs | ⟨eid, a, h0, h1, h2, h3, hf, hs⟩ |
    ⟨eid, r, h0, h1, h2, h3, hr, hs⟩ <;> rw [hs]
  · exact ⟨subset_rfl, subset_rfl, fun e v hv => hv⟩
  · refine ⟨subset_rfl, subset_rfl, fun e v hv => ?_⟩
    have hne : eid ≠ e := fun he => by rw [he, hv] at h3; cases h3
    simpa [mlookup_cons_ne _ _ hne] using hv
  · exact ⟨Finset.subset_insert _ _, Finset.subset_insert _ _, fun e v hv => hv⟩

lemma stepTrigger_dispatch {st : PState} {t : Trigger} {d : Dispatch}
    (h : (stepTrigger st t).2.1 = some d) :
    d.eid ∉ st.handled ∧ d.eid ∉ st.processing ∧ mlookup st.cache d.eid = none ∧
    d.eid ∈ (stepTrigger st t).1.handled ∧ d.eid ∈ (stepTrigger st t).1.processing ∧
    (stepTrigger st t).2.2 = none := by
  rcases stepTrigger_shape st t with hs | ⟨eid, a, h0, h1, h2, h3, hf, hs⟩ |
    ⟨eid, r, h0, h1, h2, h3, hr, hs⟩ <;> rw [hs] at h ⊢
  · cases h
  · cases h
  · obtain ⟨heid, herr⟩ := hr d h
    rw [heid]
    exact ⟨h2, h1, h3, Finset.mem_insert_self _ _, Finset.mem_insert_self _ _, herr⟩

lemma stepTrigger_excl {st : PState} {t : Trigger} {e : Str}
    (hp : e ∈ (stepTrigger st t).1.processing)
    (hc : (mlookup (stepTrigger st t).1.cache e).isSome = true) :
    e ∈ st.processing ∧ (mlookup st.cache e).isSome = true := by
  rcases stepTrigger_shape st t with hs | ⟨eid, a, h0, h1, h2, h3, hf, hs⟩ |
    ⟨eid, r, h0, h1, h2, h3, hr, hs⟩ <;> rw [hs] at hp hc
  · exact ⟨hp, hc⟩
  · by_cases he : eid = e
    · subst he
      exact absurd hp h1
    · have hc' : (mlookup ((eid, parseAck a.message) :: st.cache) e).isSome = true := hc
      rw [mlookup_cons_ne _ _ he] at hc'
      exact ⟨hp, hc'⟩
  · by_cases he : e = eid
    · subst he
      have hc' : (mlookup st.cache e).isSome = true := hc
      rw [h3] at hc'
      cases hc'
    · have hp' : e ∈ st.processing := by
        have hmem : e ∈ insert eid st.processing := hp
        rcases Finset.mem_insert.mp hmem with h | h
        · exact absurd h he
        · exact h
      exact ⟨hp', hc⟩

-- process_queue lemmas -------------------------------------------------------

lemma pq_props : ∀ (ts : List Trigger) (st : PState),
    st.handled ⊆ (process_queue st ts).1.handled ∧
    st.processing ⊆ (process_queue st ts).1.processing ∧
    (∀ e v, mlookup st.cache e = some v → mlookup (process_queue st ts).1.cache e = some v) ∧
    ((process_queue st ts).2.1.map Dispatch.eid).Nodup ∧
    (∀ e, e ∈ (process_queue st ts).2.1.map Dispatch.eid →
      e ∉ st.handled ∧ e ∉ st.processing ∧ mlookup st.cache e = none ∧
      e ∈ (process_queue st ts).1.handled) ∧
    (∀ e, e ∈ (process_queue st ts).1.processing →
      (mlookup (process_queue st ts).1.cache e).isSome = true →
      e ∈ st.processing ∧ (mlookup st.cache e).isSome = true)
  | [], st => by
    refine ⟨subset_rfl, subset_rfl, fun e v hv => hv, ?_, ?_, ?_⟩
    · simp [process_queue]
    · simp [process_queue]
    · exact fun e hp hc => ⟨hp, hc⟩
  | t :: ts, st => by
    obtain ⟨hmonoH, hmonoP, hmonoC⟩ := stepTrigger_mono st t
    rcases hEq : stepTrigger st t with ⟨st₁, d?, err⟩
    rw [hEq] at hmonoH hmonoP hmonoC
    cases err with
    | some e =>
      have hout : process_queue st (t :: ts) = (st₁, [], some e) := by
        simp [process_queue, hEq]
      rw [hout]
      refine ⟨hmonoH, hmonoP, hmonoC, by simp, by simp, ?_⟩
      intro e' hp hc
      have := @stepTrigger_excl st t e'
      rw [hEq] at this
      exact this hp hc
    | none =>
      obtain ⟨ihH, ihP, ihC, ihN, ihD, ihX⟩ := pq_props ts st₁
      have hout : process_queue st (t :: ts) =
          ((process_queue st₁ ts).1, d?.toList ++ (process_queue st₁ ts).2.1,
            (process_queue st₁ ts).2.2) := by
        simp only [process_queue, hEq]
      rw [hout]
      refine ⟨hmonoH.trans ihH, hmonoP.trans ihP, fun e v hv => ihC e v (hmonoC e v hv),
        ?_, ?_, ?_⟩
      · -- Nodup of dispatched event ids
        cases d? with
        | none => simpa using ihN
        | some d =>
          simp only [Option.toList_some, List.singleton_append, List.map_cons, List.nodup_cons]
          refine ⟨fun hmem => ?_, ihN⟩
          have hd := @stepTrigger_dispatch st t d
          rw [hEq] at hd
          obtain ⟨_, _, _, hdh, _, _⟩ := hd rfl
          exact (ihD d.eid hmem).1 hdh
      · -- dispatched ids are fresh and end up handled
        intro e hmem
        cases d? with
        | none =>
          simp only [Option.toList_none, List.nil_append] at hmem
          obtain ⟨hnh, hnp, hnc, hfin⟩ := ihD e hmem
          refine ⟨fun hh => hnh (hmonoH hh), fun hpp => hnp (hmonoP hpp), ?_, hfin⟩
          cases hcase : mlookup st.cache e with
          | none => rfl
          | some v => rw [hmonoC e v hcase] at hnc; cases hnc
        | some d =>
          simp only [Option.toList_some, List.singleton_append, List.map_cons,
            List.mem_cons] at hmem
          rcases hmem with rfl | hmem
          · have hd := @stepTrigger_dispatch st t d
            rw [hEq] at hd
            obtain ⟨hdh, hdp, hdc, hdh1, _, _⟩ := hd rfl
            exact ⟨hdh, hdp, hdc, ihH hdh1⟩
          · obtain ⟨hnh, hnp, hnc, hfin⟩ := ihD e hmem
            refine ⟨fun hh => hnh (hmonoH hh), fun hpp => hnp (hmonoP hpp), ?_, hfin⟩
            cases hcase : mlookup st.cache e with
            | none => rfl
            | some v => rw [hmonoC e v hcase] at hnc; cases hnc
      · -- processing/cache overlap projects back
        intro e hp hc
        obtain ⟨hp1, hc1⟩ := ihX e hp hc
        have := @stepTrigger_excl st t e
        rw [hEq] at this
        exact this hp1 hc1

-- Trace invariants -----------------------------------------------------------

def C1Inv (s : Sys) : Prop :=
  s.dispatched.Nodup ∧ ∀ e ∈ s.dispatched, e ∈ s.store.handled

lemma c1inv_init : C1Inv initSys := by
  constructor
  · exact List.nodup_nil
  · intro e he
    cases he

lemma c1inv_step {s s' : Sys} (h : Step s s') (hi : C1Inv s) : C1Inv s' := by
  obtain ⟨hnd, hsub⟩ := hi
  cases h with
  | cycle ts =>
    obtain ⟨pH, pP, pC, pN, pD, pX⟩ := pq_props ts s.store
    constructor
    · refine List.Nodup.append hnd pN ?_
      intro e he1 he2
      exact (pD e he2).1 (hsub e he1)
    · intro e he
      rcases List.mem_append.mp he with he | he
      · exact pH (hsub e he)
      · exact (pD e he).2.2.2
  | cacheWrite e res hmem => exact ⟨hnd, hsub⟩
  | taskDone e ph hmem => exact ⟨hnd, hsub⟩

def C4Inv (s : Sys) : Prop :=
  ∀ e, e ∈ s.store.processing → (mlookup s.store.cache e).isSome = true →
    (e, TaskPhase.cached) ∈ s.pending

lemma c4inv_init : C4Inv initSys := by
  intro e he
  cases he

lemma c4inv_step {s s' : Sys} (h : Step s s') (hi : C4Inv s) : C4Inv s' := by
  cases h with
  | cycle ts =>
    intro e hp hc
    obtain ⟨_, _, _, _, _, pX⟩ := pq_props ts s.store
    obtain ⟨hp1, hc1⟩ := pX e hp hc
    exact List.mem_append.mpr (Or.inl (hi e hp1 hc1))
  | cacheWrite e2 res hmem =>
    intro e' hp hc
    show (e', TaskPhase.cached) ∈
      s.pending.erase (e2, TaskPhase.started) ++ [(e2, TaskPhase.cached)]
    by_cases he : e' = e2
    · subst he
      exact List.mem_append.mpr (Or.inr (List.mem_singleton.mpr rfl))
    · have hc' : (mlookup s.store.cache e').isSome = true := by
        have hcc : (mlookup ((e2, res) :: s.store.cache) e').isSome = true := hc
        rwa [mlookup_cons_ne _ _ (fun hx => he hx.symm)] at hcc
      have hmem' := hi e' hp hc'
      refine List.mem_append.mpr (Or.inl ?_)
      rw [List.mem_erase_of_ne (fun hx => he (congrArg Prod.fst hx))]
      exact hmem'
  | taskDone e2 ph hmem =>
    intro e' hp hc
    have hp2 := Finset.mem_erase.mp hp
    have hmem' := hi e' hp2.2 hc
    show (e', TaskPhase.cached) ∈ s.pending.erase (e2, ph)
    rw [List.mem_erase_of_ne (fun hx => hp2.1 (congrArg Prod.fst hx))]
    exact hmem'

-- an id that is in flight with no pending task of its own stays that way
-- under any step: only a task for the id removes it from processing_events,
-- and a cycle never dispatches an id already in the in-flight set
lemma stuck_step {s s' : Sys} {e : Str} (h : Step s s')
    (hp : e ∈ s.store.processing) (hnp : ∀ ph, (e, ph) ∉ s.pending) :
    e ∈ s'.store.processing ∧ ∀ ph, (e, ph) ∉ s'.pending := by
  cases h with
  | cycle ts =>
    obtain ⟨pH, pP, pC, pN, pD, pX⟩ := pq_props ts s.store
    refine ⟨pP hp, ?_⟩
    intro ph hmem
    have hmem2 : (e, ph) ∈ s.pending ++
        (process_queue s.store ts).2.1.map (fun d => (d.eid, TaskPhase.started)) := hmem
    rcases List.mem_append.mp hmem2 with hin | hin
    · exact hnp ph hin
    · obtain ⟨d, hd, hde⟩ := List.mem_map.mp hin
      have heid : d.eid = e := congrArg Prod.fst hde
      have hdm : d.eid ∈ (process_queue s.store ts).2.1.map Dispatch.eid :=
        List.mem_map_of_mem _ hd
      rw [heid] at hdm
      exact (pD e hdm).2.1 hp
  | cacheWrite e2 res hmem =>
    have hne : e2 ≠ e := fun hx => hnp TaskPhase.started (hx ▸ hmem)
    refine ⟨hp, ?_⟩
    intro ph hmem2
    have hmem3 : (e, ph) ∈ s.pending.erase (e2, TaskPhase.started) ++
        [(e2, TaskPhase.cached)] := hmem2
    rcases List.mem_append.mp hmem3 with hin | hin
    · exact hnp ph (List.erase_subset _ _ hin)
    · have hx := List.mem_singleton.mp hin
      exact hne (congrArg Prod.fst hx).symm
  | taskDone e2 ph2 hmem =>
    have hne : e2 ≠ e := fun hx => hnp ph2 (hx ▸ hmem)
    refine ⟨Finset.mem_erase.mpr ⟨fun hx => hne hx.symm, hp⟩, ?_⟩
    intro ph hmem2
    have hmem3 : (e, ph) ∈ s.pending.erase (e2, ph2) := hmem2
    exact hnp ph (List.erase_subset _ _ hmem3)

lemma stuck_star {s s' : Sys} {e : Str} (h : StepStar s s')
    (hp : e ∈ s.store.processing) (hnp : ∀ ph, (e, ph) ∉ s.pending) :
    e ∈ s'.store.processing ∧ ∀ ph, (e, ph) ∉ s'.pending := by
  induction h with
  | refl => exact ⟨hp, hnp⟩
  | tail hstar hstep ih => exact stuck_step hstep ih.1 ih.2

lemma step_count {s s' : Sys} (h : Step s s') (e : Str)
    (he : e ∈ s.store.handled ∨ (mlookup s.store.cache e).isSome = true) :
    (e ∈ s'.store.handled ∨ (mlookup s'.store.cache e).isSome = true) ∧
    List.count e s'.dispatched = List.count e s.dispatched := by
  cases h with
  | cycle ts =>
    obtain ⟨pH, pP, pC, pN, pD, pX⟩ := pq_props ts s.store
    constructor
    · rcases he with hh | hc
      · exact Or.inl (pH hh)
      · obtain ⟨v, hv⟩ := Option.isSome_iff_exists.mp hc
        right
        rw [show (applyCycle s ts).store.cache = (process_queue s.store ts).1.cache from rfl,
          pC e v hv]
        rfl
    · have hnot : e ∉ (process_queue s.store ts).2.1.map Dispatch.eid := by
        intro hmem
        obtain ⟨hnh, _, hnc, _⟩ := pD e hmem
        rcases he with hh | hc
        · exact hnh hh
        · rw [hnc] at hc
          cases hc
      rw [show (applyCycle s ts).dispatched =
        s.dispatched ++ (process_queue s.store ts).2.1.map Dispatch.eid from rfl,
        List.count_append, List.count_eq_zero.mpr hnot]
      omega
  | cacheWrite e2 res hmem =>
    refine ⟨?_, rfl⟩
    rcases he with hh | hc
    · exact Or.inl hh
    · right
      show (mlookup ((e2, res) :: s.store.cache) e).isSome = true
      by_cases h2 : e2 = e
      · subst h2
        rw [mlookup_cons_self]
        rfl
      · rw [mlookup_cons_ne _ _ h2]
        exact hc
  | taskDone e2 ph hmem => exact ⟨he, rfl⟩

lemma stepstar_trans {a b c : Sys} (h1 : StepStar a b) (h2 : StepStar b c) :
    StepStar a c := by
  induction h2 with
  | refl => exact h1
  | tail hstar hstep ih => exact StepStar.tail ih hstep

lemma reach_of_star {s s' : Sys} (h : Reach s) (h2 : StepStar s s') : Reach s' :=
  stepstar_trans h h2

lemma reach_c1inv {s : Sys} (h : Reach s) : C1Inv s := by
  unfold Reach at h
  induction h with
  | refl => exact c1inv_init
  | tail hstar hstep ih => exact c1inv_step hstep ih

lemma reach_c4inv {s : Sys} (h : Reach s) : C4Inv s := by
  unfold Reach at h
  induction h with
  | refl => exact c4inv_init
  | tail hstar hstep ih => exact c4inv_step hstep ih

lemma star_pres {s s' : Sys} (h : StepStar s s') (e : Str)
    (he : e ∈ s.store.handled ∨ (mlookup s.store.cache e).isSome = true) :
    e ∈ s'.store.handled ∨ (mlookup s'.store.cache e).isSome = true := by
  induction h with
  | refl => exact he
  | tail hstar hstep ih => exact (step_count hstep e ih).1

lemma star_count {s s' : Sys} (h : StepStar s s') (e : Str)
    (he : e ∈ s.store.handled ∨ (mlookup s.store.cache e).isSome = true) :
    List.count e s'.dispatched = List.count e s.dispatched := by
  induction h with
  | refl => rfl
  | tail hstar hstep ih =>
    rw [(step_count hstep e (star_pres hstar e he)).2, ih]

-- Broadcast lemmas -----------------------------------------------------------

lemma broadcastGo_delivered (fails : Nat → Bool) :
    ∀ snap cur, (broadcastGo fails snap cur).2 = snap.filter (fun c => !fails c)
  | [], _ => rfl
  | c :: snap, cur => by
    simp only [broadcastGo, List.filter_cons]
    by_cases hf : fails c = true
    · rw [if_pos hf, broadcastGo_delivered fails snap (disconnect c cur)]
      simp [hf]
    · rw [if_neg hf]
      have hf' : fails c = false := by simpa using hf
      simp [hf', broadcastGo_delivered fails snap cur]

lemma broadcastGo_removed (fails : Nat → Bool) (c : Nat) (hf : fails c = true) :
    ∀ snap cur, List.count c cur ≤ List.count c snap → c ∉ (broadcastGo fails snap cur).1
  | [], cur, hcount => by
    simp only [broadcastGo]
    have hzero : List.count c cur = 0 := by simpa using hcount
    exact List.count_eq_zero.mp hzero
  | c0 :: snap, cur, hcount => by
    simp only [broadcastGo]
    by_cases h0 : fails c0 = true
    · rw [if_pos h0]
      refine broadcastGo_removed fails c hf snap (disconnect c0 cur) ?_
      unfold disconnect
      by_cases hc0 : c0 = c
      · subst hc0
        by_cases hin : c0 ∈ cur
        · rw [if_pos hin, List.count_erase_self]
          simp [List.count_cons] at hcount
          omega
        · rw [if_neg hin]
          have hz : List.count c0 cur = 0 := List.count_eq_zero.mpr hin
          omega
      · have hne : c ≠ c0 := fun h => hc0 h.symm
        have hcc : List.count c (c0 :: snap) = List.count c snap := by
          simp [List.count_cons, hne]
        rw [hcc] at hcount
        by_cases hin : c0 ∈ cur
        · rw [if_pos hin, List.count_erase_of_ne hne]
          exact hcount
        · rw [if_neg hin]
          exact hcount
    · rw [if_neg h0]
      have hcc : List.count c (c0 :: snap) = List.count c snap := by
        have hne : c ≠ c0 := fun h => h0 (h ▸ hf)
        simp [List.count_cons, hne]
      rw [hcc] at hcount
      exact broadcastGo_removed fails c hf snap cur hcount

lemma broadcastGo_kept (fails : Nat → Bool) (c : Nat) (hf : fails c = false) :
    ∀ snap cur, c ∈ cur → c ∈ (broadcastGo fails snap cur).1
  | [], _, hc => hc
  | c0 :: snap, cur, hc => by
    simp only [broadcastGo]
    by_cases h0 : fails c0 = true
    · rw [if_pos h0]
      refine broadcastGo_kept fails c hf snap (disconnect c0 cur) ?_
      have hne : c ≠ c0 := fun h => by
        rw [h, h0] at hf
        cases hf
      unfold disconnect
      by_cases hin : c0 ∈ cur
      · rw [if_pos hin]
        exact (List.mem_erase_of_ne hne).mpr hc
      · rw [if_neg hin]
        exact hc
    · rw [if_neg h0]
      exact broadcastGo_kept fails c hf snap cur hc

-- Dashboard lemmas -----------------------------------------------------------

lemma fmtEntry_tags {st : PState} {t : Trigger} {en : Entry}
    (h : fmtEntry st t = Except.ok en) : en.tags = (t.tags.take 4).map renderTag := by
  rcases hpr : t.priority with _ | pr
  · simp only [fmtEntry, hpr] at h
    cases h
  rcases hh : t.hosts with _ | hs
  · simp only [fmtEntry, hpr, hh] at h
    cases h
  rcases hd : t.description with _ | desc
  · simp only [fmtEntry, hpr, hh, hd] at h
    cases h
  · simp only [fmtEntry, hpr, hh, hd] at h
    injection h with h
    rw [← h]

lemma fmtList_forall {st : PState} : ∀ {ts : List Trigger} {ens : List Entry},
    fmtList st ts = Except.ok ens →
    List.Forall₂ (fun en t => fmtEntry st t = Except.ok en) ens ts
  | [], ens, h => by
    simp only [fmtList] at h
    injection h with h
    rw [← h]
    exact List.Forall₂.nil
  | t :: ts, ens, h => by
    simp only [fmtList] at h
    rcases he : fmtEntry st t with e | en
    · rw [he] at h
      cases h
    rcases hl : fmtList st ts with e | ens'
    · rw [he, hl] at h
      cases h
    · rw [he, hl] at h
      injection h with h
      rw [← h]
      exact List.Forall₂.cons he (fmtList_forall hl)

-- Shared recovery-branch helper ---------------------------------------------

lemma recovery_step (st : PState) (t : Trigger) (eid : Str) (a : Ack)
    (h1 : eidOf t = some eid) (h2 : eid ≠ []) (h3 : eid ∉ st.processing)
    (h4 : eid ∉ st.handled) (h5 : mlookup st.cache eid = none)
    (h6 : findIA (acksOf t) = some a) :
    stepTrigger st t =
      ({ st with cache := (eid, parseAck a.message) :: st.cache }, none, none) := by
  have h5' : ¬ (mlookup st.cache eid).isSome = true := by simp [h5]
  simp only [stepTrigger, h1, h6, if_neg h2, if_neg h3, if_neg h4, if_neg h5']

-- Shared concrete reachable states -------------------------------------------

def sCycle : Sys := applyCycle initSys [tGood]

def sMid : Sys := applyCacheWrite sCycle (str "E5") ⟨str "ai cause", str "cmd"⟩

def sBad : Sys := applyCycle initSys [tBad]

-- =============================== CLAIMS =====================================

/-- C1: at-most-once dispatch.  Along every reachable execution the history of
event ids handed to the enrichment task has no duplicates, and any id that is
in the handled set or the result cache at some reachable state is never
dispatched again by any later sequence of steps (its dispatch count stays
constant). -/
theorem claim_C1_at_most_once (s s' : Sys) (hs : Reach s) (hstar : StepStar s s') :
    s'.dispatched.Nodup ∧
    ∀ e, (e ∈ s.store.handled ∨ (mlookup s.store.cache e).isSome = true) →
      List.count e s'.dispatched = List.count e s.dispatched :=
  ⟨(reach_c1inv (reach_of_star hs hstar)).1, fun e he => star_count hstar e he⟩

/-- Witness for C1 at a concrete two-cycle trace: after the cycle that
dispatches E5, a second cycle fetching the same trigger dispatches nothing
new. -/
theorem claim_C1_witness :
    (applyCycle sCycle [tGood]).dispatched.Nodup ∧
    List.count (str "E5") (applyCycle sCycle [tGood]).dispatched =
      List.count (str "E5") sCycle.dispatched := by
  have h1 : Reach sCycle := StepStar.tail (StepStar.refl _) (Step.cycle _ _)
  have h2 : StepStar sCycle (applyCycle sCycle [tGood]) :=
    StepStar.tail (StepStar.refl _) (Step.cycle _ _)
  obtain ⟨hnd, hcount⟩ := claim_C1_at_most_once sCycle (applyCycle sCycle [tGood]) h1 h2
  exact ⟨hnd, hcount (str "E5") (Or.inl (by decide))⟩

/-- C2 (amended): recovery suppresses dispatch with the parse the code
actually performs.  When the first cycle observing a fresh event id finds an
acknowledgement containing the marker, no dispatch and no error occur, and
the stored result is exactly parseAck of the first matching acknowledgement:
summary is the text before the first separator occurrence with every
occurrence of the marker string removed and trimmed, and action is the text
between the first and second separator occurrences trimmed, or the N/A
sentinel when no separator is present. -/
theorem claim_C2_recovery_verbatim (st : PState) (t : Trigger) (eid : Str) (a : Ack)
    (h1 : eidOf t = some eid) (h2 : eid ≠ []) (h3 : eid ∉ st.processing)
    (h4 : eid ∉ st.handled) (h5 : mlookup st.cache eid = none)
    (h6 : findIA (acksOf t) = some a) :
    stepTrigger st t =
      ({ st with cache := (eid, parseAck a.message) :: st.cache }, none, none) :=
  recovery_step st t eid a h1 h2 h3 h4 h5 h6

/-- Witness for C2 on the acknowledged fixture trigger. -/
theorem claim_C2_witness :
    stepTrigger initState tAck =
      ({ initState with
          cache := (str "E2",
            parseAck (Ack.mk (str "IA: cpu spike | CMD: top")).message) :: initState.cache },
        none, none) :=
  claim_C2_recovery_verbatim initState tAck (str "E2")
    (Ack.mk (str "IA: cpu spike | CMD: top"))
    (by decide) (by decide) (by decide) (by decide) (by decide) (by decide)

/-- Counterexample for C2 as stated: on a message with a repeated marker and a
repeated separator, the code removes every marker occurrence (not only the
prefix) and keeps only the text between the first two separators (not all the
text after the first), so the stored result differs from the parse the claim
describes. -/
theorem claim_C2_cex :
    mlookup (process_queue initState [tWeird]).1.cache (str "E3") =
      some (parseAck msgWeird) ∧
    parseAck msgWeird = ⟨str "a  b", str "c"⟩ ∧
    claimParse msgWeird = ⟨str "a IA: b", str "c | CMD: d"⟩ ∧
    parseAck msgWeird ≠ claimParse msgWeird :=
  ⟨by decide, by decide, by decide, by decide⟩

/-- C3 (amended): marker round-trip.  Formatting the acknowledgement text as
the enrichment task writes it and parsing it back with the recovery parser
returns the original summary and action, provided both are trimmed, the
summary does not contain the marker string, and neither field contains the
separator string. -/
theorem claim_C3_roundtrip (s a : Str) (hs : pyStrip s = s) (ha : pyStrip a = a)
    (h1 : pyContains iaMark s = false) (h2 : pyContains cmdSep s = false)
    (h3 : pyContains cmdSep a = false) :
    parseAck (mkZabbixMsg s a) = ⟨s, a⟩ := by
  have hmsg : mkZabbixMsg s a = (str "IA: " ++ s ++ [' ']) ++ cmdSep ++ (' ' :: a) := by
    rw [mkZabbixMsg]
    rw [show str " | CMD: " = [' '] ++ cmdSep ++ [' '] from by decide]
    simp [List.append_assoc]
  have hsplit : pySplit cmdSep (mkZabbixMsg s a)
      = (str "IA: " ++ s ++ [' ']) :: pySplit cmdSep (' ' :: a) := by
    rw [hmsg]
    exact pySplit_split (by decide) cmdSep_noOverlap (cmd_not_in_part0 h2)
  have htail : pySplit cmdSep (' ' :: a) = [' ' :: a] := pySplit_no_occ (cmd_not_in_pad h3)
  have hrepl : pyReplace iaMark (str "IA: " ++ s ++ [' ']) = ' ' :: (s ++ [' ']) := by
    rw [show str "IA: " ++ s ++ [' '] = iaMark ++ (' ' :: (s ++ [' '])) from by
      rw [show str "IA: " = iaMark ++ [' '] from by decide]
      simp [List.append_assoc]]
    exact pyReplace_strip (by decide) (ia_not_in_padded h1)
  unfold parseAck
  rw [hsplit, htail]
  simp only [List.headD]
  rw [hrepl, pyStrip_pad hs, pyStrip_cons_space ha]

/-- Witness for C3 on concrete summary and action text. -/
theorem claim_C3_witness :
    parseAck (mkZabbixMsg (str "cpu spike") (str "top")) = ⟨str "cpu spike", str "top"⟩ :=
  claim_C3_roundtrip (str "cpu spike") (str "top")
    (by decide) (by decide) (by decide) (by decide) (by decide)

/-- Counterexample for C3 as stated: the round trip fails for a summary with
trailing whitespace, a summary containing the marker, a summary containing
the separator, and an action containing the separator. -/
theorem claim_C3_cex :
    parseAck (mkZabbixMsg (str "x ") (str "y")) ≠ ⟨str "x ", str "y"⟩ ∧
    parseAck (mkZabbixMsg (str "IA: x") (str "y")) ≠ ⟨str "IA: x", str "y"⟩ ∧
    parseAck (mkZabbixMsg (str "a | CMD: b") (str "y")) ≠ ⟨str "a | CMD: b", str "y"⟩ ∧
    parseAck (mkZabbixMsg (str "x") (str "c | CMD: d")) ≠ ⟨str "x", str "c | CMD: d"⟩ :=
  ⟨by decide, by decide, by decide, by decide⟩

/-- C4 (amended): the in-flight set and the result map can only overlap inside
the completion window of an enrichment task: whenever a reachable state has an
id both in processing_events and as a key of ai_memory_cache, a pending task
for that id has already written its result (line 134) and not yet executed its
removal (line 141).  Outside that window the two states are mutually
exclusive. -/
theorem claim_C4_exclusion_window (s : Sys) (h : Reach s) (e : Str)
    (hp : e ∈ s.store.processing) (hc : (mlookup s.store.cache e).isSome = true) :
    (e, TaskPhase.cached) ∈ s.pending :=
  reach_c4inv h e hp hc

/-- Witness for C4 at the mid-completion state of the dispatched fixture. -/
theorem claim_C4_witness : (str "E5", TaskPhase.cached) ∈ sMid.pending :=
  claim_C4_exclusion_window sMid
    (StepStar.tail (StepStar.tail (StepStar.refl _) (Step.cycle _ _))
      (Step.cacheWrite _ _ _ (by decide)))
    (str "E5") (by decide) (by decide)

/-- Counterexample for C4 as stated: the state in which the enrichment task
for E5 has stored its result but not yet left the in-flight set is reachable
and observable, and there the id is simultaneously in processing_events and a
key of ai_memory_cache. -/
theorem claim_C4_cex :
    Reach sMid ∧ str "E5" ∈ sMid.store.processing ∧
    (mlookup sMid.store.cache (str "E5")).isSome = true :=
  ⟨StepStar.tail (StepStar.tail (StepStar.refl _) (Step.cycle _ _))
      (Step.cacheWrite _ _ _ (by decide)),
    by decide, by decide⟩

/-- C5 (amended): every launched enrichment task removes its id from the
in-flight set on every execution path (any analyze outcome, any notification
behaviour), and a task-completion step always clears the id; but an id that
is in the in-flight set while no pending task for it exists (as after the
task arguments raised during dispatch) remains in the in-flight set, still
with no task for it, across every further sequence of steps of the process
lifetime. -/
theorem claim_C5_inflight_cleared :
    (∀ (eid : Str) (env : TaskEnv) (st : PState),
      eid ∉ (run_ai_pipeline eid env st).processing) ∧
    (∀ (s : Sys) (e : Str) (ph : TaskPhase), e ∉ (applyTaskDone s e ph).store.processing) ∧
    (∀ (s s' : Sys) (e : Str), e ∈ s.store.processing → (∀ ph, (e, ph) ∉ s.pending) →
      StepStar s s' → e ∈ s'.store.processing ∧ ∀ ph, (e, ph) ∉ s'.pending) := by
  refine ⟨?_, ?_, ?_⟩
  · intro eid env st
    cases hai : analyze_with_ai env.ai <;>
      simp only [run_ai_pipeline, hai] <;>
      exact Finset.not_mem_erase _ _
  · intro s e ph
    exact Finset.not_mem_erase _ _
  · intro s s' e hp hnp hstar
    exact stuck_star hstar hp hnp

/-- Witness for C5: a task run clears its id, and from the stuck state E1
stays in flight across two further cycles, although one of them launches a
pending task for a different event. -/
theorem claim_C5_witness :
    str "E1" ∉ (run_ai_pipeline (str "E1") ⟨AiOutcome.raised, false⟩ initState).processing ∧
    str "E1" ∈ (applyCycle (applyCycle sBad [tGood]) []).store.processing := by
  obtain ⟨h1, _, h3⟩ := claim_C5_inflight_cleared
  refine ⟨h1 _ _ _, ?_⟩
  have hnp : ∀ ph, (str "E1", ph) ∉ sBad.pending := by
    intro ph hmem
    rw [show sBad.pending = ([] : List (Str × TaskPhase)) from by decide] at hmem
    cases hmem
  exact (h3 sBad (applyCycle (applyCycle sBad [tGood]) []) (str "E1") (by decide) hnp
    (StepStar.tail (StepStar.tail (StepStar.refl _) (Step.cycle _ _)) (Step.cycle _ _))).1

/-- Counterexample for C5 as stated: a malformed trigger (empty hosts list)
passes admission, so E1 is inserted into the in-flight set, but evaluation of
the task arguments raises before the task is created: the reachable state has
E1 in flight with no pending task and an empty dispatch history, so nothing
can ever remove it. -/
theorem claim_C5_cex :
    Reach sBad ∧ str "E1" ∈ sBad.store.processing ∧ sBad.pending = [] ∧
    sBad.dispatched = [] :=
  ⟨StepStar.tail (StepStar.refl _) (Step.cycle _ _), by decide, by decide, by decide⟩

/-- C6 (amended): a trigger with a missing or empty event id is skipped
per-item without raising, and the rest of the batch proceeds; but a trigger
that reaches the dispatch branch with a missing description or a missing or
empty hosts list raises after the admission inserts, aborting the remainder
of the batch (the exception is swallowed one level up, so the scheduler
survives). -/
theorem claim_C6_skip_and_raise (st : PState) (t : Trigger) (ts : List Trigger) :
    (eidOf t = none ∨ eidOf t = some [] →
      stepTrigger st t = (st, none, none) ∧
      process_queue st (t :: ts) = process_queue st ts) ∧
    (∀ eid, eidOf t = some eid → eid ≠ [] → eid ∉ st.processing → eid ∉ st.handled →
      mlookup st.cache eid = none → findIA (acksOf t) = none →
      (t.description = none ∨ t.hosts = none ∨ t.hosts = some []) →
      ∃ er, stepTrigger st t = (beginProc st eid, none, some er) ∧
        process_queue st (t :: ts) = (beginProc st eid, [], some er)) := by
  constructor
  · intro hskip
    have hstep : stepTrigger st t = (st, none, none) := by
      rcases hskip with h | h
      · simp only [stepTrigger, h]
      · simp only [stepTrigger, h]
        simp
    refine ⟨hstep, ?_⟩
    simp only [process_queue, hstep]
    rcases hq : process_queue st ts with ⟨a, b, c⟩
    simp
  · intro eid h1 h2 h3 h4 h5 h6 hmal
    have h5' : ¬ (mlookup st.cache eid).isSome = true := by simp [h5]
    have hbase : ∀ er, stepTrigger st t = (beginProc st eid, none, some er) →
        process_queue st (t :: ts) = (beginProc st eid, [], some er) := by
      intro er hstep
      simp only [process_queue, hstep]
    rcases hd : t.description with _ | desc
    · refine ⟨PyErr.keyError, ?_, ?_⟩
      · simp only [stepTrigger, h1, h6, hd, if_neg h2, if_neg h3, if_neg h4, if_neg h5']
      · exact hbase _ (by
          simp only [stepTrigger, h1, h6, hd, if_neg h2, if_neg h3, if_neg h4, if_neg h5'])
    · rcases hmal with hmal | hmal | hmal
      · rw [hd] at hmal
        cases hmal
      · refine ⟨PyErr.keyError, ?_, ?_⟩
        · simp only [stepTrigger, h1, h6, hd, hmal, if_neg h2, if_neg h3, if_neg h4,
            if_neg h5']
        · exact hbase _ (by
            simp only [stepTrigger, h1, h6, hd, hmal, if_neg h2, if_neg h3, if_neg h4,
              if_neg h5'])
      · refine ⟨PyErr.indexError, ?_, ?_⟩
        · simp only [stepTrigger, h1, h6, hd, hmal, if_neg h2, if_neg h3, if_neg h4,
            if_neg h5']
        · exact hbase _ (by
            simp only [stepTrigger, h1, h6, hd, hmal, if_neg h2, if_neg h3, if_neg h4,
              if_neg h5'])

/-- Witness for C6 on the empty-hosts fixture followed by a good trigger. -/
theorem claim_C6_witness :
    stepTrigger initState tBad = (beginProc initState (str "E1"), none, some PyErr.indexError) ∧
    process_queue initState (tBad :: [tGood]) =
      (beginProc initState (str "E1"), [], some PyErr.indexError) := by
  obtain ⟨er, hstep, hq⟩ := (claim_C6_skip_and_raise initState tBad [tGood]).2 (str "E1")
    (by decide) (by decide) (by decide) (by decide) (by decide) (by decide)
    (Or.inr (Or.inr (by decide)))
  have hx : (stepTrigger initState tBad).2.2 = some PyErr.indexError := by decide
  rw [hstep] at hx
  simp at hx
  rw [hx] at hstep hq
  exact ⟨hstep, hq⟩

/-- Counterexample for C6 as stated: in the batch with the malformed trigger
first, process_queue raises, dispatches nothing, never reaches the good
trigger (E5 is not handled), and leaves E1 stuck in the in-flight set — the
malformed trigger is not skipped per-item and the rest of the batch is
affected. -/
theorem claim_C6_cex :
    (process_queue initState [tBad, tGood]).2.2 = some PyErr.indexError ∧
    (process_queue initState [tBad, tGood]).2.1 = [] ∧
    str "E5" ∉ (process_queue initState [tBad, tGood]).1.handled ∧
    str "E1" ∈ (process_queue initState [tBad, tGood]).1.processing :=
  ⟨by decide, by decide, by decide, by decide⟩

/-- C7 (amended): any failure raising inside the enrichment call is replaced
by the fixed fallback dict with analysis Erro IA and command N/A; the task
then stores that fallback as the result for the event and still clears the
in-flight set, for any notification behaviour — no error propagates. -/
theorem claim_C7_fallback :
    analyze_with_ai AiOutcome.raised =
      AiData.dict (some (str "Erro IA")) (some (str "N/A")) ∧
    ∀ (st : PState) (eid : Str) (tg : Bool),
      mlookup (run_ai_pipeline eid ⟨AiOutcome.raised, tg⟩ st).cache eid =
        some ⟨str "Erro IA", str "N/A"⟩ ∧
      eid ∉ (run_ai_pipeline eid ⟨AiOutcome.raised, tg⟩ st).processing := by
  refine ⟨rfl, fun st eid tg => ⟨?_, ?_⟩⟩
  · exact mlookup_cons_self _ _ _
  · exact Finset.not_mem_erase _ _

/-- Counterexample for C7 as stated: the fallback the code stores is Erro IA
with N/A, not the analysis-unavailable and none values the claim names. -/
theorem claim_C7_cex :
    mlookup (run_ai_pipeline (str "E9") ⟨AiOutcome.raised, false⟩ initState).cache (str "E9") =
      some ⟨str "Erro IA", str "N/A"⟩ ∧
    mlookup (run_ai_pipeline (str "E9") ⟨AiOutcome.raised, false⟩ initState).cache (str "E9") ≠
      some ⟨str "analysis unavailable", str "none"⟩ :=
  ⟨by decide, by decide⟩

/-- C8 (amended): the recovery branch stores the parsed result in the result
map and changes nothing else — both the in-flight set and the handled set are
left unchanged (re-dispatch of a recovered id is prevented by the result-map
membership check of the admission guard, not by the handled set). -/
theorem claim_C8_recovery_frame (st : PState) (t : Trigger) (eid : Str) (a : Ack)
    (h1 : eidOf t = some eid) (h2 : eid ≠ []) (h3 : eid ∉ st.processing)
    (h4 : eid ∉ st.handled) (h5 : mlookup st.cache eid = none)
    (h6 : findIA (acksOf t) = some a) :
    (stepTrigger st t).1.cache = (eid, parseAck a.message) :: st.cache ∧
    (stepTrigger st t).1.processing = st.processing ∧
    (stepTrigger st t).1.handled = st.handled ∧
    (stepTrigger st t).2.1 = none ∧ (stepTrigger st t).2.2 = none := by
  rw [recovery_step st t eid a h1 h2 h3 h4 h5 h6]
  exact ⟨rfl, rfl, rfl, rfl, rfl⟩

/-- Witness for C8 on the acknowledged fixture trigger. -/
theorem claim_C8_witness :
    (stepTrigger initState tAck).1.cache =
      (str "E2",
        parseAck (Ack.mk (str "IA: cpu spike | CMD: top")).message) :: initState.cache ∧
    (stepTrigger initState tAck).1.processing = initState.processing ∧
    (stepTrigger initState tAck).1.handled = initState.handled ∧
    (stepTrigger initState tAck).2.1 = none ∧ (stepTrigger initState tAck).2.2 = none :=
  claim_C8_recovery_frame initState tAck (str "E2")
    (Ack.mk (str "IA: cpu spike | CMD: top"))
    (by decide) (by decide) (by decide) (by decide) (by decide) (by decide)

/-- Counterexample for C8 as stated: after recovering E2 the result map holds
the id but the handled set does not — the recovery branch does not mark the
identifier handled. -/
theorem claim_C8_cex :
    (mlookup (process_queue initState [tAck]).1.cache (str "E2")).isSome = true ∧
    str "E2" ∉ (process_queue initState [tAck]).1.handled :=
  ⟨by decide, by decide⟩

/-- C9: broadcast prunes failed subscribers without affecting others.  Every
subscriber whose send raises is absent from the subscriber list when the call
returns, delivery succeeds exactly for the subscribers whose send does not
raise (in order), and every non-failing subscriber present at the start is
still present at the end. -/
theorem claim_C9_broadcast_prune (conns : List Nat) (fails : Nat → Bool) :
    (broadcast conns fails).2 = conns.filter (fun c => !fails c) ∧
    ∀ c, (fails c = true → c ∉ (broadcast conns fails).1) ∧
      (fails c = false → c ∈ conns → c ∈ (broadcast conns fails).1) := by
  refine ⟨broadcastGo_delivered fails conns conns, fun c => ⟨?_, ?_⟩⟩
  · intro hf
    exact broadcastGo_removed fails c hf conns conns le_rfl
  · intro hf hc
    exact broadcastGo_kept fails c hf conns conns hc

/-- Witness for C9 with three subscribers of which the second fails. -/
theorem claim_C9_witness :
    (broadcast [1, 2, 3] (fun n => n == 2)).2 = [1, 3] ∧
    2 ∉ (broadcast [1, 2, 3] (fun n => n == 2)).1 ∧
    1 ∈ (broadcast [1, 2, 3] (fun n => n == 2)).1 := by
  obtain ⟨hdel, hall⟩ := claim_C9_broadcast_prune [1, 2, 3] (fun n => n == 2)
  refine ⟨by rw [hdel]; decide, (hall 2).1 (by decide), (hall 1).2 (by decide) (by decide)⟩

/-- C10: tag bound in the snapshot.  Every entry of a successfully built
dashboard snapshot carries exactly the rendered first four tags of its
trigger, in order, hence at most four tag strings. -/
theorem claim_C10_tag_bound (st : PState) (tokens : Nat) (ts : List Trigger)
    (snap : Snapshot) (h : format_dashboard st tokens ts = Except.ok (some snap)) :
    List.Forall₂ (fun (en : Entry) (t : Trigger) =>
      en.tags = (t.tags.take 4).map renderTag ∧ en.tags.length ≤ 4) snap.data ts := by
  rcases ts with _ | ⟨t, ts⟩
  · simp only [format_dashboard] at h
    cases h
  rcases hl : fmtList st (t :: ts) with e | ens
  · simp only [format_dashboard, hl] at h
    cases h
  · simp only [format_dashboard, hl] at h
    injection h with h
    injection h with h
    have hdata : snap.data = ens := by rw [← h]
    rw [hdata]
    have hfa := fmtList_forall hl
    refine List.Forall₂.imp ?_ hfa
    intro en t2 hen
    constructor
    · exact fmtEntry_tags hen
    · rw [fmtEntry_tags hen, List.length_map, List.length_take]
      omega

/-- Witness for C10 on the five-tag fixture: the snapshot entry carries
exactly the four first rendered tags. -/
theorem claim_C10_witness :
    List.Forall₂ (fun (en : Entry) (t : Trigger) =>
      en.tags = (t.tags.take 4).map renderTag ∧ en.tags.length ≤ 4)
      [⟨str "E5", str "srv01", str "disk full", str "5", 0,
        [str "env: prod", str "team: ops", str "dc: sp", str "svc: db"],
        str "Aguardando...", none⟩] [tGood] :=
  claim_C10_tag_bound initState 7 [tGood]
    ⟨1, 1, 7,
      [⟨str "E5", str "srv01", str "disk full", str "5", 0,
        [str "env: prod", str "team: ops", str "dc: sp", str "svc: db"],
        str "Aguardando...", none⟩]⟩
    rfl

end AIOPS
